import Mathlib

/-!
Verification of the `pynmr` package (files `pynmr/__init__.py` and
`pynmr/pulse/pulse.py`) against its natural-language specification.

The string- and list-processing functions (`getpar`, `wparfile`, `writebruk`)
are embedded as computable Lean functions over `List String`; the waveform
mathematics (`generate`, `polar2cart`, `cart2polar`, `smoothing`) is embedded
over `ℝ`, with numpy's `arctan2` modelled by `Complex.arg` (both are the
standard atan2 with range `(-π, π]` and value `0` at the origin).
-/

open Real

/-! ## Python string primitives used by the source -/

/-- Python `str.rstrip()` with no argument: drop trailing whitespace.
(Implemented over the character list so that it reduces in the kernel.) -/
def pyRstrip (s : String) : String :=
  ⟨(s.data.reverse.dropWhile Char.isWhitespace).reverse⟩

/-- Python `str.rstrip("1234567890")`: drop trailing decimal digits
(the character set `"1234567890"` is exactly the decimal digits). -/
def pyRstripDigits (s : String) : String :=
  ⟨(s.data.reverse.dropWhile Char.isDigit).reverse⟩

/-- Python `str.lower()`, restricted to ASCII — every string the source
compares is ASCII. -/
def pyLower (s : String) : String :=
  ⟨s.data.map Char.toLower⟩

/-- `a.startswith(b)` on character lists. -/
def chBegins : List Char → List Char → Bool
  | [], _ => true
  | _ :: _, [] => false
  | p :: ps, c :: cs => if p = c then chBegins ps cs else false

/-- Python `s.startswith(pre)`. -/
def pyStartsWith (s pre : String) : Bool :=
  chBegins pre.data s.data

/-- Helper for Python `str.split()`: collect maximal runs of non-whitespace
characters (`acc` holds the current run, reversed). -/
def wsTokens : List Char → List Char → List String
  | [], acc => if acc = [] then [] else [⟨acc.reverse⟩]
  | c :: cs, acc =>
    if c.isWhitespace then
      if acc = [] then wsTokens cs [] else ⟨acc.reverse⟩ :: wsTokens cs []
    else wsTokens cs (c :: acc)

/-- Python `str.split()` with no argument: split on runs of whitespace,
discarding empty pieces. -/
def pySplitWs (s : String) : List String :=
  wsTokens s.data []

/-- Python `s.split(' ')`: split on every single space, keeping empty
pieces. -/
def spaceSplit : List Char → List Char → List String
  | [], acc => [⟨acc.reverse⟩]
  | c :: cs, acc =>
    if c = ' ' then ⟨acc.reverse⟩ :: spaceSplit cs []
    else spaceSplit cs (c :: acc)

/-- Python `str.strip("<>")`: drop the characters `<` and `>` from both ends. -/
def pyStripAngle (s : String) : String :=
  ⟨(((s.data.dropWhile fun c => c = '<' ∨ c = '>').reverse.dropWhile
      fun c => c = '<' ∨ c = '>').reverse)⟩

/-- `line.split(' ', 2)[1].rstrip()` from the source, as an `Option`
(`none` models Python's `IndexError` when the line holds no space).
Element 1 of the maxsplit-2 split equals element 1 of the full split on
`' '`, since the first two split points coincide. -/
def pySplitSpaceSnd (line : String) : Option String :=
  ((spaceSplit line.data []).get? 1).map pyRstrip

/-- `par = "".join(par.split()) if len(par.split()) > 1 else par`
from the head of `getpar`. -/
def pyNoSpace (par : String) : String :=
  if (pySplitWs par).length > 1 then String.join (pySplitWs par) else par

/-- Decimal value of a digit string, `int(s)` for the all-digit suffixes
`getpar` extracts (e.g. the `20` of `CNST20`). -/
def chToNat : List Char → Nat → Nat
  | [], acc => acc
  | c :: cs, acc => chToNat cs (acc * 10 + (c.toNat - 48))

def pyToNat (s : String) : Nat :=
  chToNat s.data 0

/-- Python `s[n:]` (character-based slicing; all relevant strings are
ASCII). -/
def pyDrop (s : String) (n : Nat) : String :=
  ⟨s.data.drop n⟩

/-- Python `len(s)`. -/
def pyLen (s : String) : Nat :=
  s.data.length

/-- Outcome of running a piece of Python code: a returned value, a raised
exception, or divergence (an infinite loop). -/
inductive PyResult (α : Type) where
  | ok : α → PyResult α
  | exn : String → PyResult α
  | diverge : PyResult α
deriving DecidableEq, Repr

/-! ## `getpar` (pynmr/__init__.py)

A parameter file is modelled as the list of its lines, each line carrying its
trailing `"\n"` (as returned by Python file iteration / `readline()`); the end
of the file is the end of the list, where `readline()` returns `""` forever.
-/

/-- The list-continuation loop of `getpar`:
`l = parfile.readline(); ans = ""; while not l.startswith("##"): ans = ans + l.rstrip() + " "; l = parfile.readline()`.
Returns the accumulated text and the unconsumed lines.  `none` models
divergence: once the reads hit end of file, `readline()` returns `""`, which
never starts with `"##"`, so the loop never exits (see `contStep` below for
the step-by-step justification). -/
def contRead : List String → String → Option (String × List String)
  | [], _ => none
  | l :: rest, acc =>
    if pyStartsWith l "##" then some (acc, l :: rest)
    else contRead rest (acc ++ pyRstrip l ++ " ")

/-- One iteration of the same `while` loop as a state machine, including the
end-of-file behaviour of `readline()` (it returns `""`, whose `rstrip()` is
`""`, and the loop guard `not "".startswith("##")` stays true). -/
structure ContState where
  rem : List String
  acc : String
  out : Option String
deriving DecidableEq, Repr

def contStep : ContState → ContState
  | ⟨[], acc, none⟩ => ⟨[], acc ++ " ", none⟩
  | ⟨l :: rest, acc, none⟩ =>
    if pyStartsWith l "##" then ⟨l :: rest, acc, some acc⟩
    else ⟨rest, acc ++ pyRstrip l ++ " ", none⟩
  | ⟨rem, acc, some a⟩ => ⟨rem, acc, some a⟩

/-- Case A of `getpar` (the queried name has no trailing digits): scan for a
line starting with `longstr`; on a hit take `line.split(' ', 2)[1].rstrip()`,
and if that value is parenthesized read the continuation list.  Python's
`ans[0]` / `ans[-1]` raise `IndexError` on an empty `ans`, hence the
emptiness guard; the `headD`/`getLastD` defaults are never exercised. -/
def getparA (longstr : String) : List String → PyResult String
  | [] => .ok ""
  | line :: rest =>
    if pyStartsWith (pyLower line) longstr then
      match pySplitSpaceSnd line with
      | none => .exn "IndexError"
      | some ans =>
        if ans = "" then .exn "IndexError"
        else if ans.data.headD ' ' = '(' ∧ ans.data.getLastD ' ' = ')' then
          match contRead rest "" with
          | none => .diverge
          | some (acc, _) => .ok (pyRstrip acc)
        else .ok ans
    else getparA longstr rest

/-- Case B of `getpar` (the queried name has trailing digits, e.g. `CNST20`):
for each line, a full-name (`longstr`) hit takes the value token directly and
stops; otherwise a base-name (`shortstr`) hit reads the continuation list and
indexes it with `num`; the first hit of either kind wins. -/
def getparB (longstr shortstr : String) (num : Nat) : List String → PyResult String
  | [] => .ok ""
  | line :: rest =>
    if pyStartsWith (pyLower line) longstr then
      match pySplitSpaceSnd line with
      | none => .exn "IndexError"
      | some ans => .ok ans
    else if pyStartsWith (pyLower line) shortstr then
      match contRead rest "" with
      | none => .diverge
      | some (acc, _) =>
        match (pySplitWs (pyRstrip acc)).get? num with
        | none => .exn "IndexError"
        | some a => .ok a
    else getparB longstr shortstr num rest

/-- `getpar(path, par)` over the lines of the file at `path`.
`int(par[len(parshort):])` is embedded with `pyToNat`, faithful on the
nonempty all-digit suffixes that reach it. The final `ans.strip("<>")` is
applied to any
returned value ( the `print` on an empty answer is an ignored side effect). -/
def getpar (lines : List String) (par0 : String) : PyResult String :=
  let par := pyNoSpace par0
  let parshort := pyRstripDigits par
  let longstr := "##$" ++ (pyLower par) ++ "="
  let res :=
    if parshort = par then getparA longstr lines
    else getparB longstr ("##$" ++ (pyLower parshort) ++ "=")
      (pyToNat (pyDrop par (pyLen parshort))) lines
  match res with
  | .ok ans => .ok (pyStripAngle ans)
  | r => r

/-! ## `wparfile` (pynmr/__init__.py)

The filesystem is modelled as the list of paths that exist as directories.
`p = Path(dir) / str(expno)` has `p.parent = Path(dir)`, so the source's
`p.parent.is_dir()` is membership of `dir` in that list; `p.write_text(text)`
is modelled by returning the written path `dir ++ "/" ++ toString expno`
together with the file's new (fully overwritten) content. -/
def wparfile (dirs : List String) (dir : String) (expno : Nat)
    (par val : List String) : Except String (String × String) :=
  if par.length ≠ val.length then
    .error "Parameter and value arrays are not the same length."
  else if dir ∈ dirs then
    .ok (dir ++ "/" ++ toString expno,
      String.join ((par.zip val).map fun q => q.1 ++ " : " ++ q.2 ++ "\n"))
  else
    .error ("The specified folder " ++ dir ++ " does not exist.")

/-! ## `writebruk` (pynmr/pulse/pulse.py)

The source guards are `if format == "polar": ... elif format == "cart": ...`,
where `format` is the Python *builtin function*, not the parameter `form`.
A builtin function never compares equal to a string, so both guards are false
for every call and control always reaches the final
`raise ValueError(...)`: the whole body after the guards is dead code. -/
def writebruk (l1 l2 : List Real) ( form : String := "polar") :
    Except String (List Real × List Real × Real) :=
  Except.error "write2bruk: form must be specified as either polar or cart."

/-! ## Coordinate converters and waveform generator (pynmr/pulse/pulse.py) -/

/-- `np.linspace(a, b, n)`: `n` evenly spaced reals from `a` to `b` inclusive.
In exact real arithmetic the formula `a + i*(b-a)/(n-1)` hits `b` exactly at
`i = n-1`; for `n = 1` the division is by zero, which Lean evaluates to `0`,
giving `[a]` as numpy does; for `n = 0` the list is empty. -/
noncomputable def linspace (a b : Real) (n : Nat) : List Real :=
  (List.range n).map fun i : Nat => a + (i : Real) * (b - a) / ((n : Real) - 1)

/-- `polar2cart(amplitudes, phases)`: elementwise `A*cos(phi)` and `A*sin(phi)`. -/
noncomputable def polar2cart (amplitudes phases : List Real) : List Real × List Real :=
  ((amplitudes.zip phases).map fun p => p.1 * Real.cos p.2,
   (amplitudes.zip phases).map fun p => p.1 * Real.sin p.2)

/-- `np.arctan2(y, x)`: the standard atan2, equal to the argument of the
complex number `x + y*i`, with range `(-π, π]` and `atan2 0 0 = 0`. -/
noncomputable def atan2 (y x : Real) : Real :=
  Complex.arg ⟨x, y⟩

/-- `cart2polar(x, y)`: elementwise `sqrt(x²+y²)` and `arctan2(y, x)`. -/
noncomputable def cart2polar (x y : List Real) : List Real × List Real :=
  ((x.zip y).map fun p => Real.sqrt (p.1 ^ 2 + p.2 ^ 2),
   (x.zip y).map fun p => atan2 p.2 p.1)

/-- The chirp/saltire smoothed amplitude: the discretized piecewise function
`sin(πx/2s)` for `x < s`, `1` for `s ≤ x ≤ 1-s`, `sin(π(1-x)/2s)` for
`x > 1-s`, built by `np.piecewise`.  `np.piecewise` assigns the pieces in
order, a later true condition overwriting an earlier one, and leaves `0`
where no condition holds, hence the guard order below; each lambda is
evaluated only on the samples its condition selects. -/
noncomputable def chirpAmp (s x : Real) : Real :=
  if x > 1 - s then Real.sin (π * (1 - x) / (2 * s))
  else if s ≤ x ∧ x ≤ 1 - s then 1
  else if x < s then Real.sin (π * x / (2 * s))
  else 0

/-- The WURST amplitude `1 - |sin(π t)| ** smoothing` (real exponent, so a
real power `rpow`). -/
noncomputable def wurstAmp (smoothing t : Real) : Real :=
  1 - |Real.sin (π * t)| ^ smoothing

/-- The quadratic sweep phase `π * duration * bandwidth * t²` shared by the
WURST, chirp and saltire branches. -/
noncomputable def chirpPhase (duration bandwidth t : Real) : Real :=
  π * duration * bandwidth * t ^ 2

/-- The output-form dispatch at the tail of `generate`: `polar` returns the
pair as generated, `cart` converts via `polar2cart`, anything else raises. -/
noncomputable def formatOut (form : String) (A phi : List Real) :
    Except String (List Real × List Real) :=
  if form = "polar" then .ok (A, phi)
  else if form = "cart" then .ok (polar2cart A phi)
  else .error "Form not recognised. Please use either polar or cart."

/-- `generate(points, duration, bandwidth, smoothing, type, form='polar')`.
`time = np.linspace(-0.5, 0.5, points)`; the saltire branch builds the chirp
waveform, converts to cartesian, zeroes the imaginary part
(`Cy = np.zeros(points)`) and converts back. -/
noncomputable def generate (points : Nat) (duration bandwidth smoothing : Real)
    (ptype : String) (form : String := "polar") :
    Except String (List Real × List Real) :=
  let time := linspace (-0.5) 0.5 points
  if ptype = "wurst" then
    if smoothing < 1 then
      .error "For a WURST pulse the smoothing factor / index must be 1 or greater."
    else
      formatOut form (time.map (wurstAmp smoothing))
        (time.map (chirpPhase duration bandwidth))
  else if ptype = "chirp" then
    if smoothing < 0 ∨ smoothing > 50 then
      .error "For a chirp pulse the smoothing factor must be between 0 and 50."
    else
      let s := smoothing / 100
      let x := linspace 0 1 points
      formatOut form (x.map (chirpAmp s)) (time.map (chirpPhase duration bandwidth))
  else if ptype = "saltire" then
    if smoothing < 0 ∨ smoothing > 50 then
      .error "For a saltire pulse the smoothing factor must be between 0 and 50."
    else
      let s := smoothing / 100
      let x := linspace 0 1 points
      let Achirp := x.map (chirpAmp s)
      let phichirp := time.map (chirpPhase duration bandwidth)
      let C := polar2cart Achirp phichirp
      let Cy := List.replicate points (0 : Real)
      let Ap := cart2polar C.1 Cy
      formatOut form Ap.1 Ap.2
  else
    .error ("Unknown type of pulse specified (" ++ ptype ++ ").")

/-- `smoothing(smooth_percentage, points, type)` from the source.  The
`sinebell` branch of the source reads
`if smoothing < 1: ...` and `1 - (abs(np.sin(PI * time)) ** smoothing)`,
where `smoothing` is the *enclosing function object* and `time` is an
undefined name: its guard raises
`TypeError: '<' not supported between instances of 'function' and 'int'`
on every call.  An unknown `type` leaves `smoothfunc` unassigned, so the
final `return smoothfunc` raises `UnboundLocalError`. -/
noncomputable def smoothingProfile (smooth_percentage : Real) (points : Nat)
    (type : String) : Except String (List Real) :=
  if type = "quartersine" then
    if smooth_percentage < 0 ∨ smooth_percentage > 50 then
      .error "The smoothing factor must be between 0 and 50."
    else
      .ok ((linspace 0 1 points).map (chirpAmp (smooth_percentage / 100)))
  else if type = "sinebell" then
    .error "TypeError: < not supported between instances of function and int"
  else
    .error "UnboundLocalError: local variable smoothfunc referenced before assignment"

/-! ## Theorems -/

/-- Skipping lines that match neither directive name leaves the Case-B scan
unchanged. -/
theorem getparB_append (longstr shortstr : String) (num : Nat)
    (pre rest : List String)
    (hpre : ∀ l ∈ pre, (pyStartsWith (pyLower l) longstr) = false ∧
      (pyStartsWith (pyLower l) shortstr) = false) :
    getparB longstr shortstr num (pre ++ rest) = getparB longstr shortstr num rest := by
  induction pre with
  | nil => rfl
  | cons l ls ih =>
    have h := hpre l (List.mem_cons_self _ _)
    simp only [List.cons_append, getparB, h.1, h.2, Bool.false_eq_true, if_false]
    exact ih fun m hm => hpre m (List.mem_cons_of_mem _ hm)

/-- C2 (amended): for a query with a trailing integer index, the *first* line
matching either the full name or the base name determines the answer; when a
full-name directive line precedes every base-name line, `getpar` returns its
first value token directly — with *no* parenthesized-list continuation
handling — stripped of angle brackets. -/
theorem getpar_fullname_first (par : String) (pre post : List String)
    (line v : String)
    (hns : pyNoSpace par = par)
    (hnum : pyRstripDigits par ≠ par)
    (hpre : ∀ l ∈ pre,
      (pyStartsWith (pyLower l) ("##$" ++ pyLower par ++ "=")) = false ∧
      (pyStartsWith (pyLower l) ("##$" ++ pyLower (pyRstripDigits par) ++ "=")) = false)
    (hline : pyStartsWith (pyLower line) ("##$" ++ pyLower par ++ "=") = true)
    (hv : pySplitSpaceSnd line = some v) :
    getpar (pre ++ line :: post) par = PyResult.ok (pyStripAngle v) := by
  unfold getpar
  simp only [hns, if_neg hnum]
  rw [getparB_append _ _ _ pre _ hpre]
  simp only [getparB, hline, if_true, hv]

/-- C2 witness: a concrete file in which the full-name directive `##$cnst2=`
comes first; its parenthesized value is returned verbatim, not expanded as a
list. -/
theorem getpar_fullname_first_witness :
    getpar ["##TITLE= x\n", "##$cnst2= (0..1)\n", "##$cnst= 0\n"] "CNST2" =
      PyResult.ok (pyStripAngle "(0..1)") :=
  getpar_fullname_first "CNST2" ["##TITLE= x\n"] ["##$cnst= 0\n"]
    "##$cnst2= (0..1)\n" "(0..1)" (by decide) (by decide) (by decide)
    (by decide) (by decide)

/-- C2 counterexample: in a file where the base-name directive `##$cnst=`
precedes the full-name directive `##$cnst2=`, the query `CNST2` is answered
from index 2 of the base-name list (`"12"`), not from the explicit `CNST2`
directive (`"99"`): the full name does *not* take priority regardless of
order. -/
theorem getpar_fullname_not_priority :
    getpar ["##$cnst= (0..3)\n", "10 11 12 13\n", "##$cnst2= 99\n", "##END=\n"]
        "CNST2" = PyResult.ok "12" ∧
    (pyStartsWith (pyLower "##$cnst2= 99\n") "##$cnst2=") = true ∧
    ("12" : String) ≠ "99" := by
  refine ⟨by decide, by decide, by decide⟩

/-- Once the continuation loop has consumed the whole file, every further
iteration appends the empty `readline()` result and never terminates. -/
theorem contStep_eof : ∀ (n : Nat) (acc : String),
    (contStep^[n] ⟨[], acc, none⟩).out = none
  | 0, _ => rfl
  | n + 1, acc => by
    rw [Function.iterate_succ_apply]
    exact contStep_eof n (acc ++ " ")

/-- C3: `getpar` does *not* terminate on every finite file.  On a file whose
base-name list runs to end of file with no following `##` line, the query
`CNST2` diverges: the embedded `getpar` reports divergence, and the faithful
step-by-step model of the `while` loop (started exactly where the source
starts it, after the `##$cnst=` match) never produces an answer. -/
theorem getpar_eof_divergence :
    getpar ["##$cnst= (0..3)\n", "0 1 2 3\n"] "CNST2" = PyResult.diverge ∧
    ∀ n : Nat, (contStep^[n] ⟨["0 1 2 3\n"], "", none⟩).out = none := by
  refine ⟨by decide, fun n => ?_⟩
  cases n with
  | zero => rfl
  | succ m =>
    rw [Function.iterate_succ_apply]
    have hstep : contStep ⟨["0 1 2 3\n"], "", none⟩ = ⟨[], "0 1 2 3 ", none⟩ := by
      decide
    rw [hstep]
    exact contStep_eof m _

/-- C4 counterexample: with a filesystem in which `"d"` exists but the
experiment directory `"d/1"` does not, `wparfile` succeeds — writing the
*file* `d/1` — although the claim requires a not-found failure whenever the
experiment directory is missing. -/
theorem wparfile_missing_expdir :
    wparfile ["d"] "d" 1 ["a"] ["b"] = Except.ok ("d/1", "a : b\n") ∧
    "d/1" ∉ (["d"] : List String) :=
  ⟨rfl, by decide⟩

/-- C4 (amended): for equal-length name/value lists, `wparfile` fails with the
not-found error exactly when the *parent* directory `dir` does not exist, and
on success overwrites the file `dir/<expno>` — a file named after the
experiment number inside `dir`, not a fixed-name file inside `dir/<expno>/` —
with one `name : value` line per pair, in input order. -/
theorem wparfile_spec (dirs : List String) (dir : String) (expno : Nat)
    (par val : List String) (hlen : par.length = val.length) :
    (dir ∈ dirs →
      wparfile dirs dir expno par val =
        Except.ok (dir ++ "/" ++ toString expno,
          String.join ((par.zip val).map fun q => q.1 ++ " : " ++ q.2 ++ "\n"))) ∧
    (dir ∉ dirs →
      wparfile dirs dir expno par val =
        Except.error ("The specified folder " ++ dir ++ " does not exist.")) := by
  unfold wparfile
  rw [if_neg (by simp [hlen])]
  constructor
  · intro h; rw [if_pos h]
  · intro h; rw [if_neg h]

/-- C4 witness: two pairs written into an existing directory `"d"` under
experiment number 2 produce the file `d/2` holding the two lines in order. -/
theorem wparfile_spec_witness :
    wparfile ["d"] "d" 2 ["p1", "p2"] ["v1", "v2"] =
      Except.ok ("d/2", "p1 : v1\np2 : v2\n") :=
  (wparfile_spec ["d"] "d" 2 ["p1", "p2"] ["v1", "v2"] rfl).1 (by decide)

/-- C1: `writebruk` raises for *every* form, including the documented
`"polar"`: the source compares the builtin `format` (not the parameter
`form`) against the form tags, so no waveform is ever serialized and no
amplitude is ever normalized to 100. -/
theorem writebruk_always_raises :
    writebruk [1, 2] [0, 0] "polar" =
      Except.error "write2bruk: form must be specified as either polar or cart." :=
  rfl

/-- C10: requesting a `sinebell` smoothing profile always raises: the source
guard compares the enclosing function object `smoothing` with `1` (a
`TypeError`), and the body references the undefined name `time`; the envelope
`1 - |sin(π t)| ** smooth_percentage` is never computed. -/
theorem sinebell_always_raises :
    smoothingProfile 2 5 "sinebell" =
      Except.error "TypeError: < not supported between instances of function and int" := by
  unfold smoothingProfile
  rw [if_neg (by decide), if_pos rfl]


/-- `linspace` produces exactly `n` samples. -/
theorem linspace_length (a b : Real) (n : Nat) : (linspace a b n).length = n := by
  unfold linspace
  rw [List.length_map, List.length_range]

/-- The `i`-th element of a map over `linspace`. -/
theorem linspace_map_getD (f : Real → Real) (a b : Real) (n i : Nat) (hi : i < n) :
    ((linspace a b n).map f).getD i 0 = f (a + (i : Real) * (b - a) / ((n : Real) - 1)) := by
  unfold linspace
  rw [List.map_map, List.getD_eq_getElem?_getD, List.getElem?_map, List.getElem?_range hi]
  rfl

/-- Every sample of the axis `np.linspace(0, 1, n)` lies in `[0, 1]`. -/
theorem mem_linspace01 (n : Nat) (x : Real) (hx : x ∈ linspace 0 1 n) :
    0 ≤ x ∧ x ≤ 1 := by
  unfold linspace at hx
  rw [List.mem_map] at hx
  obtain ⟨i, hi, rfl⟩ := hx
  rw [List.mem_range] at hi
  rcases Nat.lt_or_ge n 2 with h2 | h2
  · have hn1 : n = 1 := by omega
    have hi0 : i = 0 := by omega
    subst hn1; subst hi0
    norm_num
  · have h2' : (2 : Real) ≤ n := by exact_mod_cast h2
    have hd : (0 : Real) < (n : Real) - 1 := by linarith
    have hi' : (i : Real) ≤ (n : Real) - 1 := by
      have : (i : Real) + 1 ≤ (n : Real) := by exact_mod_cast hi
      linarith
    constructor
    · have : (0 : Real) ≤ (i : Real) * (1 - 0) / ((n : Real) - 1) :=
        div_nonneg (by positivity) hd.le
      linarith
    · have : (i : Real) * (1 - 0) / ((n : Real) - 1) ≤ 1 := by
        rw [div_le_one hd]
        nlinarith
      linarith

/-- C8: a WURST generation with `points ≥ 2` and `smoothing ≥ 1` returns
amplitude `1 - |sin(π t)| ** smoothing` and phase `π·duration·bandwidth·t²`
over the normalized axis `[-0.5, 0.5]`; the amplitude is `0` at the first and
last samples (`t = ∓0.5`) and, for an odd number of points, exactly `1` at
the center sample (`t = 0`). -/
theorem wurst_formula (points : Nat) (d b sm : Real)
    (hp : 2 ≤ points) (hs : 1 ≤ sm) :
    generate points d b sm "wurst" "polar" =
      Except.ok ((linspace (-0.5) 0.5 points).map (wurstAmp sm),
        (linspace (-0.5) 0.5 points).map (chirpPhase d b)) ∧
    ((linspace (-0.5) 0.5 points).map (wurstAmp sm)).getD 0 0 = 0 ∧
    ((linspace (-0.5) 0.5 points).map (wurstAmp sm)).getD (points - 1) 0 = 0 ∧
    (Odd points →
      ((linspace (-0.5) 0.5 points).map (wurstAmp sm)).getD ((points - 1) / 2) 0 = 1) := by
  have hppos : 0 < points := by omega
  have hcast : (2 : Real) ≤ (points : Real) := by exact_mod_cast hp
  have h1 : ¬ (sm < 1) := not_lt.2 hs
  refine ⟨?_, ?_, ?_, ?_⟩
  · simp [generate, formatOut, h1]
  · rw [linspace_map_getD _ _ _ _ 0 hppos]
    have ht : (-0.5 : Real) + ((0 : Nat) : Real) * (0.5 - -0.5) / ((points : Real) - 1)
        = -0.5 := by
      norm_num
    rw [ht]
    unfold wurstAmp
    have harg : Real.pi * (-0.5 : Real) = -(Real.pi / 2) := by ring
    rw [harg, Real.sin_neg, Real.sin_pi_div_two, abs_neg, abs_one, Real.one_rpow,
      sub_self]
  · rw [linspace_map_getD _ _ _ _ (points - 1) (by omega)]
    have hc : ((points - 1 : Nat) : Real) = (points : Real) - 1 := by
      rw [Nat.cast_sub (by omega : 1 ≤ points)]
      norm_num
    have hne : ((points : Real) - 1) ≠ 0 := by linarith
    have ht : (-0.5 : Real) + ((points - 1 : Nat) : Real) * (0.5 - -0.5) / ((points : Real) - 1)
        = 0.5 := by
      rw [hc]
      field_simp
    rw [ht]
    unfold wurstAmp
    have harg : Real.pi * (0.5 : Real) = Real.pi / 2 := by ring
    rw [harg, Real.sin_pi_div_two, abs_one, Real.one_rpow, sub_self]
  · rintro ⟨k, hk⟩
    have hk1 : 1 ≤ k := by omega
    have hidx : (points - 1) / 2 = k := by omega
    rw [hidx, linspace_map_getD _ _ _ _ k (by omega)]
    have hkR : (1 : Real) ≤ (k : Real) := by exact_mod_cast hk1
    have hptsR : (points : Real) = 2 * (k : Real) + 1 := by
      rw [hk]; push_cast; ring
    have ht : (-0.5 : Real) + (k : Real) * (0.5 - -0.5) / ((points : Real) - 1) = 0 := by
      rw [hptsR]
      have h2k : (2 : Real) * (k : Real) + 1 - 1 = 2 * (k : Real) := by ring
      rw [h2k]
      field_simp
      ring
    rw [ht]
    unfold wurstAmp
    have hsm0 : sm ≠ 0 := by linarith
    rw [mul_zero, Real.sin_zero, abs_zero, Real.zero_rpow hsm0, sub_zero]

/-- C8 witness: for 3 points and smoothing 2 the center sample has
amplitude 1. -/
theorem wurst_formula_witness :
    ((linspace (-0.5) 0.5 3).map (wurstAmp 2)).getD 1 0 = 1 :=
  (wurst_formula 3 1 1 2 (by norm_num) (by norm_num)).2.2.2 ⟨1, by norm_num⟩

/-- C9: for a chirp with smoothing 0 (`s = 0/100 = 0`), no sample of the axis
over `[0, 1]` satisfies `x < s` or `x > 1 - s`, every sample satisfies the
middle condition `s ≤ x ≤ 1 - s` with amplitude exactly 1 — so the sine
pieces, which divide by `2s`, are never evaluated and no division by zero
occurs — and the generation returns the all-ones amplitude with the quadratic
phase. -/
theorem chirp_smoothing_zero (points : Nat) (d b : Real) :
    (∀ x ∈ linspace 0 1 points,
      ¬ (x < 0 / 100) ∧ ¬ (x > 1 - 0 / 100) ∧
      ((0 : Real) / 100 ≤ x ∧ x ≤ 1 - 0 / 100) ∧ chirpAmp (0 / 100) x = 1) ∧
    generate points d b 0 "chirp" "polar" =
      Except.ok ((linspace 0 1 points).map fun _ => (1 : Real),
        (linspace (-0.5) 0.5 points).map (chirpPhase d b)) := by
  have h100 : (0 : Real) / 100 = 0 := by norm_num
  have key : ∀ x ∈ linspace 0 1 points,
      ¬ (x < 0 / 100) ∧ ¬ (x > 1 - 0 / 100) ∧
      ((0 : Real) / 100 ≤ x ∧ x ≤ 1 - 0 / 100) ∧ chirpAmp (0 / 100) x = 1 := by
    intro x hx
    obtain ⟨hx0, hx1⟩ := mem_linspace01 points x hx
    refine ⟨?_, ?_, ⟨?_, ?_⟩, ?_⟩
    · rw [h100]; exact not_lt.2 hx0
    · rw [h100, sub_zero]; exact not_lt.2 hx1
    · rw [h100]; exact hx0
    · rw [h100, sub_zero]; exact hx1
    · unfold chirpAmp
      rw [h100, sub_zero]
      rw [if_neg (not_lt.2 hx1), if_pos ⟨hx0, hx1⟩]
  refine ⟨key, ?_⟩
  have hcond : ¬ ((0 : Real) < 0 ∨ (0 : Real) > 50) := by norm_num
  simp only [generate, formatOut, if_true]
  rw [if_neg hcond]
  have hmap : List.map (chirpAmp (0 / 100)) (linspace 0 1 points) =
      List.map (fun _ => (1 : Real)) (linspace 0 1 points) :=
    List.map_congr_left fun x hx => (key x hx).2.2.2
  rw [hmap, if_neg (by decide : ¬ ("chirp" = "wurst"))]

/-- C9 witness: at the first sample `x = 0` of a 2-point axis the middle
(constant-1) piece applies. -/
theorem chirp_smoothing_zero_witness : chirpAmp (0 / 100) 0 = 1 :=
  ((chirp_smoothing_zero 2 1 1).1 0 (by
    unfold linspace
    rw [List.mem_map]
    exact ⟨0, by rw [List.mem_range]; norm_num, by norm_num⟩)).2.2.2

/-- C7: `generate` returns an error — and hence no waveform — exactly when
the arguments are invalid: smoothing below 1 for `wurst`, smoothing outside
`[0, 50]` for `chirp` or `saltire`, an unknown pulse-type tag, or (with a
valid type and smoothing) an output-form tag other than `polar`/`cart`. -/
theorem generate_error_iff (points : Nat) (d b sm : Real) (ptype form : String) :
    (∃ msg, generate points d b sm ptype form = Except.error msg) ↔
      ((ptype = "wurst" ∧ sm < 1) ∨
       ((ptype = "chirp" ∨ ptype = "saltire") ∧ (sm < 0 ∨ sm > 50)) ∨
       (ptype ≠ "wurst" ∧ ptype ≠ "chirp" ∧ ptype ≠ "saltire") ∨
       (((ptype = "wurst" ∧ 1 ≤ sm) ∨
         ((ptype = "chirp" ∨ ptype = "saltire") ∧ 0 ≤ sm ∧ sm ≤ 50)) ∧
        form ≠ "polar" ∧ form ≠ "cart")) := by
  have hform : ∀ A phi : List Real,
      (∃ msg, formatOut form A phi = Except.error msg) ↔
        (form ≠ "polar" ∧ form ≠ "cart") := by
    intro A phi
    unfold formatOut
    by_cases hp : form = "polar"
    · simp [hp]
    · by_cases hc : form = "cart"
      · simp [hp, hc]
      · simp [hp, hc]
  unfold generate
  by_cases hw : ptype = "wurst"
  · subst hw
    rw [if_pos rfl]
    by_cases hsm : sm < 1
    · rw [if_pos hsm]
      simp [hsm]
    · rw [if_neg hsm]
      rw [hform]
      push_neg at hsm
      simp [hsm, not_lt.2 hsm]
  · rw [if_neg hw]
    by_cases hc : ptype = "chirp"
    · subst hc
      rw [if_pos rfl]
      by_cases hsm : sm < 0 ∨ sm > 50
      · rw [if_pos hsm]
        simp [hsm]
      · rw [if_neg hsm]
        rw [hform]
        push_neg at hsm
        simp [hsm.1, hsm.2, not_lt.2 hsm.1, not_lt.2 hsm.2]
    · rw [if_neg hc]
      by_cases hs : ptype = "saltire"
      · subst hs
        rw [if_pos rfl]
        by_cases hsm : sm < 0 ∨ sm > 50
        · rw [if_pos hsm]
          simp [hsm]
        · rw [if_neg hsm]
          rw [hform]
          push_neg at hsm
          simp [hsm.1, hsm.2, not_lt.2 hsm.1, not_lt.2 hsm.2]
      · simp [hw, hc, hs]

/-- Zipping a list with an at-least-as-long constant list pairs every element
with the constant (`Cy = np.zeros(points)` in the saltire branch). -/
theorem zip_replicate_right {α β : Type} (l : List α) (n : Nat) (c : β)
    (h : l.length ≤ n) :
    l.zip (List.replicate n c) = l.map fun a => (a, c) := by
  induction l generalizing n with
  | nil => simp
  | cons a as ih =>
    cases n with
    | zero => simp at h
    | succ m =>
      simp only [List.replicate_succ, List.zip_cons_cons, List.map_cons]
      rw [ih m (by simpa using h)]

/-- The smoothed chirp amplitude is nonnegative on the axis `[0, 1]`: each
sine piece is evaluated on an angle in `[0, π/2)` and the middle piece is 1. -/
theorem chirpAmp_nonneg (s x : Real) (hx0 : 0 ≤ x) (hx1 : x ≤ 1) :
    0 ≤ chirpAmp s x := by
  unfold chirpAmp
  split_ifs with h1 h2 h3
  · have hs : 0 < s := by linarith
    apply Real.sin_nonneg_of_nonneg_of_le_pi
    · exact div_nonneg (mul_nonneg Real.pi_pos.le (by linarith)) (by linarith)
    · rw [div_le_iff₀ (by linarith : (0 : Real) < 2 * s)]
      have hx2s : 1 - x ≤ 2 * s := by linarith
      nlinarith [Real.pi_pos]
  · exact zero_le_one
  · have hs : 0 < s := by linarith
    apply Real.sin_nonneg_of_nonneg_of_le_pi
    · exact div_nonneg (mul_nonneg Real.pi_pos.le hx0) (by linarith)
    · rw [div_le_iff₀ (by linarith : (0 : Real) < 2 * s)]
      have hx2s : x ≤ 2 * s := by linarith
      nlinarith [Real.pi_pos]
  · exact le_refl 0

/-- `arctan2(0, c)` is `0` for `c ≥ 0` (including the origin) and `π` for
`c < 0`. -/
theorem atan2_zero_cases (c : Real) : atan2 0 c = 0 ∨ atan2 0 c = π := by
  unfold atan2
  have hco : (⟨c, 0⟩ : Complex) = (c : Complex) := rfl
  rw [hco]
  rcases le_or_lt 0 c with h | h
  · exact Or.inl (Complex.arg_ofReal_of_nonneg h)
  · exact Or.inr (Complex.arg_ofReal_of_neg h)

/-- The saltire pipeline `cart2polar (polar2cart …).1 zeros` computed in
closed form: amplitudes `|A_chirp·cos φ_chirp|` and phases
`arctan2(0, A_chirp·cos φ_chirp)`, indexed over the zipped axes. -/
theorem saltire_core (points : Nat) (d b s : Real) :
    cart2polar (polar2cart ((linspace 0 1 points).map (chirpAmp s))
        ((linspace (-0.5) 0.5 points).map (chirpPhase d b))).1
        (List.replicate points 0) =
      (((linspace 0 1 points).zip (linspace (-0.5) 0.5 points)).map
          (fun q => |chirpAmp s q.1 * Real.cos (chirpPhase d b q.2)|),
       ((linspace 0 1 points).zip (linspace (-0.5) 0.5 points)).map
          (fun q => atan2 0 (chirpAmp s q.1 * Real.cos (chirpPhase d b q.2)))) := by
  unfold polar2cart cart2polar
  dsimp only
  rw [List.zip_map]
  simp only [List.map_map]
  rw [zip_replicate_right _ points (0 : Real)
    (le_of_eq (by simp [linspace_length]))]
  simp only [List.map_map]
  have habs : ∀ c : Real, Real.sqrt (c ^ 2 + 0 ^ 2) = |c| := fun c => by
    rw [(by norm_num : c ^ 2 + (0 : Real) ^ 2 = c ^ 2), Real.sqrt_sq_eq_abs]
  refine Prod.ext ?_ ?_
  · refine List.map_congr_left fun q _ => ?_
    obtain ⟨q1, q2⟩ := q
    exact habs _
  · refine List.map_congr_left fun q _ => ?_
    obtain ⟨q1, q2⟩ := q
    rfl

/-- C5 (amended): a valid saltire generation in polar form returns, at each
sample, the phase `arctan2(0, A_chirp·cos φ_chirp)` — always `0` or `π` —
and the amplitude `A_chirp·|cos φ_chirp|` (with *no* factor 2), where
`A_chirp`, `φ_chirp` are the chirp amplitude and quadratic-sweep phase at
that sample. -/
theorem saltire_formula (points : Nat) (d b sm : Real)
    (h0 : 0 ≤ sm) (h50 : sm ≤ 50) :
    generate points d b sm "saltire" "polar" =
      Except.ok
        (((linspace 0 1 points).zip (linspace (-0.5) 0.5 points)).map
            (fun q => chirpAmp (sm / 100) q.1 * |Real.cos (chirpPhase d b q.2)|),
         ((linspace 0 1 points).zip (linspace (-0.5) 0.5 points)).map
            (fun q => atan2 0 (chirpAmp (sm / 100) q.1 * Real.cos (chirpPhase d b q.2)))) ∧
    ∀ p ∈ ((linspace 0 1 points).zip (linspace (-0.5) 0.5 points)).map
        (fun q => atan2 0 (chirpAmp (sm / 100) q.1 * Real.cos (chirpPhase d b q.2))),
      p = 0 ∨ p = π := by
  constructor
  · have hcond : ¬ (sm < 0 ∨ sm > 50) := by
      rw [not_or]
      exact ⟨not_lt.2 h0, not_lt.2 h50⟩
    simp only [generate, formatOut, if_true]
    rw [if_neg (by decide : ¬ ("saltire" = "wurst")),
      if_neg (by decide : ¬ ("saltire" = "chirp"))]
    rw [if_neg hcond]
    rw [saltire_core]
    refine congrArg Except.ok (Prod.ext ?_ rfl)
    refine List.map_congr_left fun q hq => ?_
    obtain ⟨q1, q2⟩ := q
    have hq1 := (List.of_mem_zip hq).1
    obtain ⟨h01, h11⟩ := mem_linspace01 points q1 hq1
    rw [abs_mul, abs_of_nonneg (chirpAmp_nonneg (sm / 100) q1 h01 h11)]
  · intro p hp
    rw [List.mem_map] at hp
    obtain ⟨q, _, rfl⟩ := hp
    exact atan2_zero_cases _

/-- C5 witness: the amended formula instantiated at a concrete valid
generation (1 point, smoothing 0). -/
theorem saltire_formula_witness :
    generate 1 0 0 0 "saltire" "polar" =
      Except.ok
        (((linspace 0 1 1).zip (linspace (-0.5) 0.5 1)).map
            (fun q => chirpAmp (0 / 100) q.1 * |Real.cos (chirpPhase 0 0 q.2)|),
         ((linspace 0 1 1).zip (linspace (-0.5) 0.5 1)).map
            (fun q => atan2 0 (chirpAmp (0 / 100) q.1 * Real.cos (chirpPhase 0 0 q.2)))) :=
  (saltire_formula 1 0 0 0 le_rfl (by norm_num)).1

/-- C5 counterexample: for the single-sample saltire with zero sweep the code
returns amplitude `1`, but `2·A_chirp·|cos φ_chirp| = 2` there: the claimed
factor 2 is absent from the returned amplitude. -/
theorem saltire_no_factor_two :
    generate 1 0 0 0 "saltire" "polar" = Except.ok ([1], [0]) ∧
    (1 : Real) ≠ 2 * chirpAmp (0 / 100) 0 * |Real.cos (chirpPhase 0 0 (-0.5))| := by
  have hA : chirpAmp (0 / 100) 0 = 1 := by
    unfold chirpAmp
    norm_num
  have hP : chirpPhase 0 0 (-0.5 : Real) = 0 := by
    unfold chirpPhase
    ring
  have h1 : atan2 0 1 = 0 := by
    unfold atan2
    have hco : (⟨1, 0⟩ : Complex) = ((1 : Real) : Complex) := rfl
    rw [hco]
    exact Complex.arg_ofReal_of_nonneg zero_le_one
  constructor
  · have hcond : ¬ ((0 : Real) < 0 ∨ (0 : Real) > 50) := by norm_num
    simp only [generate, formatOut, if_true]
    rw [if_neg (by decide : ¬ ("saltire" = "wurst")),
      if_neg (by decide : ¬ ("saltire" = "chirp"))]
    rw [if_neg hcond]
    rw [saltire_core]
    have hz : (linspace 0 1 1).zip (linspace (-0.5) 0.5 1) =
        [((0 : Real), (-0.5 : Real))] := by
      unfold linspace
      rw [(by decide : List.range 1 = [0])]
      norm_num
    rw [hz]
    simp only [List.map_cons, List.map_nil]
    rw [hA, hP, Real.cos_zero, mul_one, abs_one, h1]
  · rw [hA, hP, Real.cos_zero, abs_one]
    norm_num

/-- `getD` through a `map`, at an in-range index. -/
theorem getD_map_of_lt {α β : Type} (f : α → β) (l : List α) (i : Nat) (d : β)
    (h : i < l.length) :
    (l.map f).getD i d = f (l.get ⟨i, h⟩) := by
  rw [List.getD_eq_getElem?_getD, List.getElem?_map, List.getElem?_eq_getElem h]
  rfl

/-- For a positive radius, `arctan2` of the cartesian pair recovers the
phase up to a multiple of `2π`. -/
theorem atan2_polar_cong (a phi : Real) (ha : 0 < a) :
    ∃ k : Int, atan2 (a * Real.sin phi) (a * Real.cos phi) - phi = 2 * π * k := by
  refine ⟨⌊(π - phi) / (2 * π)⌋, ?_⟩
  unfold atan2
  have hz : (⟨a * Real.cos phi, a * Real.sin phi⟩ : Complex) =
      (a : Complex) * (Complex.cos phi + Complex.sin phi * Complex.I) := by
    apply Complex.ext <;>
      simp [Complex.cos_ofReal_re, Complex.sin_ofReal_re]
  rw [hz]
  exact Complex.arg_mul_cos_add_sin_mul_I_sub ha phi

/-- C6 (amended): the polar→cartesian→polar round trip recovers every
nonnegative amplitude exactly, and recovers the phase up to congruence
modulo `2π` at every sample whose amplitude is strictly positive (at an
amplitude-0 sample the phase collapses to `arctan2(0,0) = 0`). -/
theorem roundtrip (A phis : List Real) (hlen : A.length = phis.length)
    (hA : ∀ a ∈ A, 0 ≤ a) :
    (cart2polar (polar2cart A phis).1 (polar2cart A phis).2).1 = A ∧
    ∀ i, i < A.length → 0 < A.getD i 0 →
      ∃ k : Int,
        (cart2polar (polar2cart A phis).1 (polar2cart A phis).2).2.getD i 0
          - phis.getD i 0 = 2 * π * k := by
  have hzip : (polar2cart A phis).1.zip (polar2cart A phis).2
      = (A.zip phis).map fun p => (p.1 * Real.cos p.2, p.1 * Real.sin p.2) := by
    unfold polar2cart
    dsimp only
    rw [List.zip_map']
  have h1 : (cart2polar (polar2cart A phis).1 (polar2cart A phis).2).1
      = (A.zip phis).map
          fun p => Real.sqrt ((p.1 * Real.cos p.2) ^ 2 + (p.1 * Real.sin p.2) ^ 2) := by
    unfold cart2polar
    dsimp only
    rw [hzip, List.map_map]
    exact List.map_congr_left fun p _ => rfl
  have h2 : (cart2polar (polar2cart A phis).1 (polar2cart A phis).2).2
      = (A.zip phis).map
          fun p => atan2 (p.1 * Real.sin p.2) (p.1 * Real.cos p.2) := by
    unfold cart2polar
    dsimp only
    rw [hzip, List.map_map]
    exact List.map_congr_left fun p _ => rfl
  constructor
  · rw [h1]
    have hpt : ∀ p ∈ A.zip phis,
        Real.sqrt ((p.1 * Real.cos p.2) ^ 2 + (p.1 * Real.sin p.2) ^ 2) = p.1 := by
      intro p hp
      obtain ⟨p1, p2⟩ := p
      have h0 : 0 ≤ p1 := hA p1 (List.of_mem_zip hp).1
      have hsum : (p1 * Real.cos p2) ^ 2 + (p1 * Real.sin p2) ^ 2 = p1 ^ 2 := by
        have hsc := Real.sin_sq_add_cos_sq p2
        linear_combination p1 ^ 2 * hsc
      rw [hsum, Real.sqrt_sq h0]
    rw [List.map_congr_left hpt]
    exact List.map_fst_zip A phis (le_of_eq hlen)
  · intro i hi hpos
    rw [h2]
    have hi2 : i < phis.length := hlen ▸ hi
    have hilen : i < (A.zip phis).length := by
      rw [List.length_zip, ← hlen, min_self]
      exact hi
    rw [getD_map_of_lt _ _ i 0 hilen]
    have hzg : (A.zip phis).get ⟨i, hilen⟩ = (A[i], phis[i]) := List.getElem_zip
    have hphi_eq : phis.getD i 0 = phis[i] := by
      rw [List.getD_eq_getElem?_getD, List.getElem?_eq_getElem hi2]
      rfl
    have hA_eq : A.getD i 0 = A[i] := by
      rw [List.getD_eq_getElem?_getD, List.getElem?_eq_getElem hi]
      rfl
    rw [hzg, hphi_eq]
    exact atan2_polar_cong (A[i]) (phis[i]) (by rw [hA_eq] at hpos; exact hpos)

/-- C6 witness: the round trip at amplitude 1, phase 0. -/
theorem roundtrip_witness :
    (cart2polar (polar2cart [(1 : Real)] [0]).1 (polar2cart [1] [0]).2).1 = [1] :=
  (roundtrip [1] [0] rfl (by
    intro a ha
    rw [List.mem_singleton] at ha
    rw [ha]
    norm_num)).1

/-- C6 counterexample: at amplitude 0 (allowed by the claim's `≥ 0`
hypothesis) the phase is *not* recovered modulo `2π`: the round trip of
`(A, φ) = ([0], [π])` returns phase `[0]`, and `0 - π` is no integer
multiple of `2π`. -/
theorem roundtrip_zero_amplitude :
    (cart2polar (polar2cart [(0 : Real)] [π]).1 (polar2cart [0] [π]).2).2 = [0] ∧
    ¬ ∃ k : Int, (0 : Real) - π = 2 * π * k := by
  constructor
  · unfold polar2cart cart2polar
    dsimp only
    simp only [List.zip_cons_cons, List.zip_nil_right, List.map_cons, List.map_nil]
    rw [zero_mul, zero_mul]
    have h00 : atan2 0 0 = 0 := by
      unfold atan2
      have hco : (⟨(0 : Real), (0 : Real)⟩ : Complex) = 0 := rfl
      rw [hco, Complex.arg_zero]
    rw [h00]
  · rintro ⟨k, hk⟩
    have hπ := Real.pi_ne_zero
    have h2 : π * (-1) = π * (2 * (k : Real)) := by linear_combination hk
    have h3 : (-1 : Real) = 2 * (k : Real) := mul_left_cancel₀ hπ h2
    have h4 : (-1 : Int) = 2 * k := by exact_mod_cast h3
    omega
